import Mathlib

/-!
Verification of the node processing contract and miss/replay data model of an
incrementally maintained streaming dataflow engine.

The embedding covers `dataflow/src/processing.rs` (the `Miss` structure and its
key accessors, `ProcessingResult`, `RawProcessingResult`, `ReplayContext`, and
the default `Ingredient` methods `on_input_raw`, `lookup`, `can_query_through`,
`query_through`) and `src/security/mod.rs` (`Policy::parse`).

Modelling conventions:
- `DataType` is an abstract comparable scalar; the development is parameterised
  by a type `α` with decidable equality, instantiated at `String` in concrete
  scenarios.
- Rust panics (out-of-bounds indexing, `Option::unwrap` on `None`,
  `panic!`) are modelled as `none` for element accesses and as
  `Except.error ()` for whole operations: a normal return is `some` / `.ok`.
- A trait object is split into its data part (`NodeRef`: the flags the default
  methods read) and its behaviour part (a `QueryThroughFn` applied to the node
  index with the same argument list as the Rust method).
- `HashSet` key sets are modelled as lists with membership-based containment;
  `HashMap`s keyed by node index are modelled as functions into `Option`.
-/

/-- Local node index (`LocalNodeIndex`): a locally unique node identifier
within one domain. -/
abbrev LocalNodeIndex := Nat

/-- Embedding of the `Miss` struct: describes one failed lookup during
processing, with the node missed on, the columns of that node used as the
lookup index, the columns of `record` supplying the lookup key, the optional
replay-key columns, and the record being processed. -/
structure Miss (α : Type) where
  /-- The node we missed when looking up into (Rust field `on`, a Lean
  keyword). -/
  on_node : LocalNodeIndex
  lookup_idx : List Nat
  lookup_cols : List Nat
  replay_cols : Option (List Nat)
  record : List α
  deriving Repr, DecidableEq

/-- Embedding of `cols.iter().map(|&rc| &record[rc]).cloned().collect()`:
collects `record[i]` for each listed column index, in order. Rust indexing
panics out of bounds; the panic is modelled as `none` (a normal collection is
`some`). -/
def projectRecord (record : List α) : List Nat → Option (List α)
  | [] => some []
  | i :: is =>
    match record[i]? with
    | none => none
    | some x =>
      match projectRecord record is with
      | none => none
      | some xs => some (x :: xs)

/-- Embedding of `Miss::lookup_key_vec`: the owned lookup key, the values of
`record` at `lookup_cols`. -/
def Miss.lookup_key_vec (m : Miss α) : Option (List α) :=
  projectRecord m.record m.lookup_cols

/-- Embedding of `Miss::lookup_key`: the borrowing iterator over
`&record[rc]` for `rc` in `lookup_cols`. The iterator is modelled as the list
of its yielded element accesses, each access `none` when it would panic. -/
def Miss.lookup_key (m : Miss α) : List (Option α) :=
  m.lookup_cols.map (fun i => m.record[i]?)

/-- Embedding of `Miss::replay_key_vec`: `None` when `replay_cols` is absent,
otherwise the owned replay key (inner `none` models an indexing panic). -/
def Miss.replay_key_vec (m : Miss α) : Option (Option (List α)) :=
  m.replay_cols.map (fun rc => projectRecord m.record rc)

/-- Embedding of `Miss::replay_key`: `None` when `replay_cols` is absent,
otherwise the borrowing iterator over `&record[rc]` for `rc` in
`replay_cols`, modelled as the list of its yielded element accesses. -/
def Miss.replay_key (m : Miss α) : Option (List (Option α)) :=
  m.replay_cols.map (fun rc => rc.map (fun i => m.record[i]?))

/-- A signed row of a batch (`Record`): positive for insertion, negative for
removal. -/
structure SignedRow (α : Type) where
  positive : Bool
  row : List α
  deriving Repr, DecidableEq

/-- A batch of signed rows (`Records`), insertion order significant. -/
abbrev Records (α : Type) := List (SignedRow α)

/-- Embedding of `ProcessingResult`: forwarded rows plus the misses collected
while producing them. -/
structure ProcessingResult (α : Type) where
  results : Records α
  misses : List (Miss α)

/-- Embedding of `RawProcessingResult`. The `HashSet<Vec<DataType>>` key sets
are modelled as lists of keys. -/
inductive RawProcessingResult (α : Type)
  | Regular (pr : ProcessingResult α)
  | FullReplay (rs : Records α) (last : Bool)
  | CapturedFull
  | ReplayPiece (rows : Records α) (keys : List (List α)) (captured : List (List α))

/-- Embedding of `ReplayContext`. -/
inductive ReplayContext (α : Type)
  | None
  | Partial (key_cols : List Nat) (keys : List (List α))
  | Full (last : Bool)

/-- Embedding of `ReplayContext::key`: the key columns when the context is
`Partial`, `None` otherwise. -/
def ReplayContext.key : ReplayContext α → Option (List Nat)
  | .Partial key_cols _ => some key_cols
  | .None => none
  | .Full _ => none

/-- Embedding of `LookupResult`: a materialized lookup either finds rows or
declares an explicit miss. -/
inductive LookupResult (α : Type)
  | Some (rs : List (List α))
  | Missing

/-- A node's materialization (`State`): supports keyed lookup on a column
list. `KeyType` is modelled as the list of key values. -/
structure State (α : Type) where
  lookup : List Nat → List α → LookupResult α

/-- Embedding of `StateMap`: node-indexed materializations; `none` when the
node has no materialization. -/
abbrev StateMap (α : Type) := LocalNodeIndex → Option (State α)

/-- The data part of a domain node as read by the default `Ingredient`
methods: `is_internal()` and the `can_query_through()` declaration. -/
structure NodeRef where
  is_internal : Bool
  can_query_through : Bool
  deriving Repr, DecidableEq

/-- Embedding of `DomainNodes`: node-indexed domain nodes; `none` when the
domain holds no node under that index. -/
abbrev DomainNodes := LocalNodeIndex → Option NodeRef

/-- The behaviour part of a node's `query_through(columns, key, domains,
states)` method, applied to the node's index with the same argument list as
the Rust method: `none` = cannot query through, `some none` = the underlying
ancestor lookup missed, `some (some rs)` = derived rows. -/
abbrev QueryThroughFn (α : Type) :=
  LocalNodeIndex → List Nat → List α → DomainNodes → StateMap α →
    Option (Option (List (List α)))

/-- The default `Ingredient::query_through` body: `None`. -/
def Ingredient.default_query_through (α : Type) : QueryThroughFn α :=
  fun _ _ _ _ _ => none

/-- The default `Ingredient::can_query_through` body: `false`. -/
def Ingredient.default_can_query_through : Bool :=
  false

/-- Embedding of the default `Ingredient::lookup`: look up `key` in the
parent's materialization; when no materialization exists, fetch the parent
from `domains` (`unwrap` panic modelled as `.error ()`) and, when it is
internal, fall back to its `query_through`, otherwise return `none`. -/
def Ingredient.lookup (query_through : QueryThroughFn α) (parent : LocalNodeIndex)
    (columns : List Nat) (key : List α) (domains : DomainNodes)
    (states : StateMap α) : Except Unit (Option (Option (List (List α)))) :=
  match states parent with
  | some state =>
    match state.lookup columns key with
    | .Some rs => .ok (some (some rs))
    | .Missing => .ok (some none)
  | none =>
    match domains parent with
    | none => .error ()
    | some p =>
      .ok (if p.is_internal then query_through parent columns key domains states else none)

/-- The signature of a node's `on_input` method; the tracer is treated
opaquely (type parameter `τ`). -/
abbrev OnInputFn (α τ : Type) :=
  LocalNodeIndex → Records α → τ → Option (List Nat) → DomainNodes → StateMap α →
    ProcessingResult α

/-- Embedding of the default `Ingredient::on_input_raw`: forward to
`on_input` with the key columns extracted from the replay context, wrapping
the result in `Regular`. -/
def Ingredient.on_input_raw (on_input : OnInputFn α τ) (frm : LocalNodeIndex)
    (data : Records α) (tracer : τ) (replay : ReplayContext α)
    (domain : DomainNodes) (states : StateMap α) : RawProcessingResult α :=
  .Regular (on_input frm data tracer replay.key domain states)

/-- The captured-keys invariant on a raw result: a `ReplayPiece`'s captured
set stays within the key set `req` requested by the triggering
`ReplayContext::Partial`; any other variant satisfies it trivially. -/
def capturedWithinRequest (req : List (List α)) : RawProcessingResult α → Prop
  | .ReplayPiece _ _ captured => ∀ k ∈ captured, k ∈ req
  | _ => True

/-!
The policy subsystem (`src/security/mod.rs`). `serde_json::Value` and its
indexing/serialization behaviour are modelled concretely (`JsonValue`); the
external parsers `serde_json::from_str` and `nom_sql::parser::parse_query`
are abstracted as function parameters.
-/

/-- Model of `serde_json::Value`. -/
inductive JsonValue
  | null
  | bool (b : Bool)
  | num (n : Int)
  | str (s : String)
  | arr (vs : List JsonValue)
  | obj (fields : List (String × JsonValue))
  deriving Repr

/-- Model of serde_json's JSON string escaping for the characters that have
short escape forms (other characters are emitted as themselves). -/
def jsonEscapeChar (c : Char) : String :=
  if c = '\\' then "\\\\"
  else if c = '"' then "\\\""
  else if c = '\n' then "\\n"
  else if c = '\t' then "\\t"
  else if c = '\r' then "\\r"
  else String.singleton c

/-- Escape a string for JSON serialization. -/
def jsonEscape (s : String) : String :=
  String.join (s.toList.map jsonEscapeChar)

mutual

/-- Model of `serde_json::Value::to_string()` (the `Display` serialization):
in particular a JSON string serializes with its surrounding double quotes. -/
def JsonValue.serialize : JsonValue → String
  | .null => "null"
  | .bool b => cond b "true" "false"
  | .num n => ToString.toString n
  | .str s => "\"" ++ jsonEscape s ++ "\""
  | .arr vs => "[" ++ JsonValue.serializeArr vs ++ "]"
  | .obj fs => "\x7b" ++ JsonValue.serializeObj fs ++ "\x7d"

/-- Serialize the comma-separated elements of a JSON array. -/
def JsonValue.serializeArr : List JsonValue → String
  | [] => ""
  | [v] => JsonValue.serialize v
  | v :: vs => JsonValue.serialize v ++ "," ++ JsonValue.serializeArr vs

/-- Serialize the comma-separated fields of a JSON object. -/
def JsonValue.serializeObj : List (String × JsonValue) → String
  | [] => ""
  | [(k, v)] => "\"" ++ jsonEscape k ++ "\":" ++ JsonValue.serialize v
  | (k, v) :: fs =>
    "\"" ++ jsonEscape k ++ "\":" ++ JsonValue.serialize v ++ "," ++
      JsonValue.serializeObj fs

end

/-- Model of serde_json's `Value` indexing by a string key (`value[key]`):
the field's value on an object that has the key, `Null` otherwise (missing
key or non-object). -/
def JsonValue.index (v : JsonValue) (key : String) : JsonValue :=
  match v with
  | .obj fs =>
    match fs.find? (fun f => f.1 == key) with
    | some f => f.2
    | none => .null
  | _ => .null

/-- Model of `Value::as_str()`: the raw string for a JSON string, `None`
otherwise. -/
def JsonValue.as_str : JsonValue → Option String
  | .str s => some s
  | _ => none

/-- Embedding of the `Policy` struct; the predicate type (`SqlQuery`) is
abstract. -/
structure Policy (σ : Type) where
  table : String
  predicate : σ

/-- The body of the per-element closure in `Policy::parse`: unwrap the
`table` and `predicate` string fields (panic on non-strings modelled as
`.error ()`), parse the assembled query (panic on parse failure), and build
the `Policy` with `table` set to the JSON-serialized `table` field. -/
def parsePolicyElem (parse_query : String → Option σ) (p : JsonValue) :
    Except Unit (Policy σ) :=
  match (p.index "table").as_str with
  | none => .error ()
  | some t =>
    match (p.index "predicate").as_str with
    | none => .error ()
    | some pd =>
      match parse_query ("select * from " ++ t ++ " " ++ pd ++ ";") with
      | none => .error ()
      | some q => .ok ⟨(p.index "table").serialize, q⟩

/-- The `iter().map(...).collect()` loop of `Policy::parse`: elements are
processed in order and the first panic aborts the whole call. -/
def parsePolicyList (parse_query : String → Option σ) :
    List JsonValue → Except Unit (List (Policy σ))
  | [] => .ok []
  | p :: ps =>
    match parsePolicyElem parse_query p with
    | .error e => .error e
    | .ok pol =>
      match parsePolicyList parse_query ps with
      | .error e => .error e
      | .ok rest => .ok (pol :: rest)

/-- Embedding of `Policy::parse`: deserialize the policy text into a JSON
array (`panic!` on a deserialization error modelled as `.error ()`), then map
each element to a `Policy`. `from_str` abstracts `serde_json::from_str` and
`parse_query` abstracts `nom_sql::parser::parse_query`. -/
def Policy.parse (from_str : String → Except String (List JsonValue))
    (parse_query : String → Option σ) (policy_text : String) :
    Except Unit (List (Policy σ)) :=
  match from_str policy_text with
  | .error _ => .error ()
  | .ok policies => parsePolicyList parse_query policies

/-!
Concrete fixtures (`DataType` instantiated at `String`) used by witnesses and
counterexamples.
-/

/-- A materialization whose lookup always finds the single row `["r"]`. -/
def stateHit : State String := ⟨fun _ _ => .Some [["r"]]⟩

/-- A materialization whose lookup always declares a miss. -/
def stateMissing : State String := ⟨fun _ _ => .Missing⟩

/-- A state map materializing every node with `stateHit`. -/
def statesHit : StateMap String := fun _ => some stateHit

/-- A state map materializing every node with `stateMissing`. -/
def statesMissing : StateMap String := fun _ => some stateMissing

/-- A state map with no materialization anywhere. -/
def statesEmpty : StateMap String := fun _ => none

/-- An internal node that declares `can_query_through`. -/
def nodeInternal : NodeRef := ⟨true, true⟩

/-- A source (non-internal) node. -/
def nodeSource : NodeRef := ⟨false, false⟩

/-- An internal node that declares `can_query_through() == false`. -/
def nodeInternalNoQT : NodeRef := ⟨true, false⟩

/-- A domain where every node is `nodeInternal`. -/
def domainsInternal : DomainNodes := fun _ => some nodeInternal

/-- A domain where every node is `nodeSource`. -/
def domainsSource : DomainNodes := fun _ => some nodeSource

/-- A domain where every node is `nodeInternalNoQT`. -/
def domainsInternalNoQT : DomainNodes := fun _ => some nodeInternalNoQT

/-- A domain holding no nodes. -/
def domainsEmpty : DomainNodes := fun _ => none

/-- A query-through behaviour that always derives the single row `["q"]`. -/
def qtRows : QueryThroughFn String := fun _ _ _ _ _ => some (some [["q"]])

/-- The default query-through behaviour (`None`). -/
def qtNone : QueryThroughFn String := Ingredient.default_query_through String

/-- A constant `on_input` behaviour producing an empty result. -/
def onInputConst : OnInputFn String Unit := fun _ _ _ _ _ _ => ⟨[], []⟩

/-- Scenario A of the spec: `lookup_cols = [0]`, `lookup_idx = [1]`,
`record = ["x","y"]`, no `replay_cols`. -/
def missScenarioA : Miss String := ⟨0, [1], [0], none, ["x", "y"]⟩

/-- Scenario B of the spec: scenario A with `replay_cols = Some([1])`. -/
def missScenarioB : Miss String := ⟨0, [1], [0], some [1], ["x", "y"]⟩

/-- A `Miss` whose `lookup_cols` and `lookup_idx` lengths disagree. -/
def missMismatched : Miss String := ⟨0, [], [0], none, ["x"]⟩

/-- A well-formed policy element, as in the repository's own test. -/
def policyElemGood : JsonValue :=
  JsonValue.obj [("table", JsonValue.str "posts"),
    ("predicate", JsonValue.str "WHERE posts.type = ?")]

/-- A JSON deserializer returning the one-element policy array. -/
def fromStrGood : String → Except String (List JsonValue) :=
  fun _ => .ok [policyElemGood]

/-- A JSON deserializer failing on every input. -/
def fromStrBad : String → Except String (List JsonValue) :=
  fun _ => .error "malformed"

/-- A SQL parser model accepting every query. -/
def parseQueryStub : String → Option Nat := fun _ => some 0

/-!
Helper lemmas.
-/

/-- `projectRecord` on in-bounds column indices succeeds, preserves length,
reproduces the indexed record entries pointwise, and agrees with the direct
elementwise accesses. -/
theorem projectRecord_spec (record : List α) (cols : List Nat)
    (h : ∀ i ∈ cols, i < record.length) :
    ∃ v, projectRecord record cols = some v ∧ v.length = cols.length ∧
      (∀ (j i : Nat), cols[j]? = some i → v[j]? = record[i]?) ∧
      cols.map (fun i => record[i]?) = v.map some := by
  induction cols with
  | nil =>
    refine ⟨[], rfl, rfl, ?_, rfl⟩
    intro j i hj
    simp at hj
  | cons i is ih =>
    have hi : i < record.length := h i (by simp)
    have hx : record[i]? = some record[i] := List.getElem?_eq_getElem hi
    obtain ⟨v, hv, hlen, hidx, hmap⟩ := ih (fun j hj => h j (by simp [hj]))
    refine ⟨record[i] :: v, ?_, by simp [hlen], ?_, by simp [hx, hmap]⟩
    · simp [projectRecord, hx, hv]
    · intro j k hj
      cases j with
      | zero =>
        simp at hj
        subst hj
        simp [hx]
      | succ j =>
        simp at hj ⊢
        exact hidx j k hj

/-- `as_str` succeeds exactly on JSON strings. -/
theorem as_str_eq_some {v : JsonValue} {s : String} (h : v.as_str = some s) :
    v = .str s := by
  cases v <;> simp_all [JsonValue.as_str]

/-- A panicking element anywhere in the array aborts `parsePolicyList`. -/
theorem parsePolicyList_error (parse_query : String → Option σ) (ps : List JsonValue)
    (h : ∃ p ∈ ps, parsePolicyElem parse_query p = .error ()) :
    parsePolicyList parse_query ps = .error () := by
  induction ps with
  | nil => simp at h
  | cons p ps ih =>
    rcases h with ⟨q, hq, hqe⟩
    rcases List.mem_cons.1 hq with rfl | hq2
    · simp [parsePolicyList, hqe]
    · cases he : parsePolicyElem parse_query p with
      | error e => cases e; simp [parsePolicyList, he]
      | ok pol => simp [parsePolicyList, he, ih ⟨q, hq2, hqe⟩]

/-- `parsePolicyList` on success returns one policy per element, in order. -/
theorem parsePolicyList_ok (parse_query : String → Option σ) (ps : List JsonValue)
    (l : List (Policy σ)) (h : parsePolicyList parse_query ps = .ok l) :
    l.length = ps.length ∧
      ∀ (k : Nat) p, ps[k]? = some p →
        ∃ pol, l[k]? = some pol ∧ parsePolicyElem parse_query p = .ok pol := by
  induction ps generalizing l with
  | nil =>
    simp [parsePolicyList] at h
    subst h
    refine ⟨rfl, ?_⟩
    intro k p hk
    simp at hk
  | cons p ps ih =>
    cases he : parsePolicyElem parse_query p with
    | error e => simp [parsePolicyList, he] at h
    | ok pol =>
      cases ht : parsePolicyList parse_query ps with
      | error e => simp [parsePolicyList, he, ht] at h
      | ok rest =>
        simp [parsePolicyList, he, ht] at h
        subst h
        obtain ⟨hlen, hidx⟩ := ih rest ht
        refine ⟨by simp [hlen], ?_⟩
        intro k q hk
        cases k with
        | zero =>
          simp at hk
          subst hk
          exact ⟨pol, by simp, he⟩
        | succ k =>
          simp at hk ⊢
          exact hidx k q hk

/-- A successful `parsePolicyElem` stores the JSON-serialized `table` field,
surrounding double quotes included, not the raw string. -/
theorem parsePolicyElem_ok (parse_query : String → Option σ) (p : JsonValue)
    (pol : Policy σ) (h : parsePolicyElem parse_query p = .ok pol) :
    ∃ s, (p.index "table").as_str = some s ∧
      pol.table = (p.index "table").serialize ∧
      pol.table = "\"" ++ jsonEscape s ++ "\"" := by
  unfold parsePolicyElem at h
  cases hts : (p.index "table").as_str with
  | none => rw [hts] at h; simp at h
  | some t =>
    rw [hts] at h
    cases hpd : (p.index "predicate").as_str with
    | none => rw [hpd] at h; simp at h
    | some pd =>
      rw [hpd] at h
      simp only [] at h
      cases hq : parse_query ("select * from " ++ t ++ " " ++ pd ++ ";") with
      | none => rw [hq] at h; simp at h
      | some q =>
        rw [hq] at h
        simp at h
        have hstr : p.index "table" = .str t := as_str_eq_some hts
        refine ⟨t, rfl, ?_, ?_⟩
        · rw [← h]
        · rw [← h, hstr]
          rfl

/-!
Claim theorems.
-/

/-- C1: the default `Ingredient::lookup` follows the three-step chaining
algorithm: a materialization hit yields `Some(Some(rows))` and a declared
miss of that materialization yields `Some(None)`; with no materialization, an
internal parent yields exactly the parent's `query_through` on the same
columns, key, domains and states; with no materialization and a non-internal
parent, the result is `None`. -/
theorem lookup_default_chaining (qt : QueryThroughFn α) (parent : LocalNodeIndex)
    (columns : List Nat) (key : List α) (domains : DomainNodes)
    (states : StateMap α) :
    (∀ st rs, states parent = some st → st.lookup columns key = .Some rs →
      Ingredient.lookup qt parent columns key domains states = .ok (some (some rs))) ∧
    (∀ st, states parent = some st → st.lookup columns key = .Missing →
      Ingredient.lookup qt parent columns key domains states = .ok (some none)) ∧
    (∀ nd, states parent = none → domains parent = some nd → nd.is_internal = true →
      Ingredient.lookup qt parent columns key domains states =
        .ok (qt parent columns key domains states)) ∧
    (∀ nd, states parent = none → domains parent = some nd → nd.is_internal = false →
      Ingredient.lookup qt parent columns key domains states = .ok none) := by
  refine ⟨?_, ?_, ?_, ?_⟩
  · intro st rs hs hl
    simp [Ingredient.lookup, hs, hl]
  · intro st hs hl
    simp [Ingredient.lookup, hs, hl]
  · intro nd hs hd hint
    simp [Ingredient.lookup, hs, hd, hint]
  · intro nd hs hd hint
    simp [Ingredient.lookup, hs, hd, hint]

/-- Witness for C1: all four branches of the chaining algorithm at concrete
inputs. -/
theorem lookup_default_chaining_witness :
    Ingredient.lookup qtRows 0 [0] ["k"] domainsEmpty statesHit =
      .ok (some (some [["r"]])) ∧
    Ingredient.lookup qtRows 0 [0] ["k"] domainsEmpty statesMissing =
      .ok (some none) ∧
    Ingredient.lookup qtRows 0 [0] ["k"] domainsInternal statesEmpty =
      .ok (some (some [["q"]])) ∧
    Ingredient.lookup qtRows 0 [0] ["k"] domainsSource statesEmpty = .ok none := by
  refine ⟨?_, ?_, ?_, ?_⟩
  · exact (lookup_default_chaining qtRows 0 [0] ["k"] domainsEmpty statesHit).1
      stateHit [["r"]] rfl rfl
  · exact (lookup_default_chaining qtRows 0 [0] ["k"] domainsEmpty statesMissing).2.1
      stateMissing rfl rfl
  · exact (lookup_default_chaining qtRows 0 [0] ["k"] domainsInternal statesEmpty).2.2.1
      nodeInternal rfl rfl rfl
  · exact (lookup_default_chaining qtRows 0 [0] ["k"] domainsSource statesEmpty).2.2.2
      nodeSource rfl rfl rfl

/-- C2 counterexample: with no materialization, an internal parent that
declares `can_query_through() == false` but whose `query_through` returns
rows makes the default `lookup` return those rows, not `None`: the claimed
`None` iff "source or `can_query_through() == false`" characterization fails
because `lookup` consults `is_internal()` and the `query_through` result, not
`can_query_through()`. -/
theorem lookup_trichotomy_counterexample :
    statesEmpty 0 = none ∧
    domainsInternalNoQT 0 = some nodeInternalNoQT ∧
    nodeInternalNoQT.can_query_through = false ∧
    Ingredient.lookup qtRows 0 [0] ["k"] domainsInternalNoQT statesEmpty =
      .ok (some (some [["q"]])) ∧
    Ingredient.lookup qtRows 0 [0] ["k"] domainsInternalNoQT statesEmpty ≠
      .ok none := by
  refine ⟨rfl, rfl, rfl, rfl, ?_⟩
  have hv : Ingredient.lookup qtRows 0 [0] ["k"] domainsInternalNoQT statesEmpty =
      .ok (some (some [["q"]])) := rfl
  rw [hv]
  simp

/-- C3: the default `on_input_raw` returns `Regular` wrapping exactly the
result of `on_input` on the same arguments, with the replay-key-columns
argument `some key_cols` under `Partial` and `none` under `None` or `Full`;
it never produces another variant. -/
theorem on_input_raw_default_regular (on_input : OnInputFn α τ)
    (frm : LocalNodeIndex) (data : Records α) (tracer : τ)
    (domain : DomainNodes) (states : StateMap α) :
    (∀ key_cols keys,
      Ingredient.on_input_raw on_input frm data tracer
          (.Partial key_cols keys) domain states =
        .Regular (on_input frm data tracer (some key_cols) domain states)) ∧
    (Ingredient.on_input_raw on_input frm data tracer .None domain states =
      .Regular (on_input frm data tracer none domain states)) ∧
    (∀ last, Ingredient.on_input_raw on_input frm data tracer (.Full last) domain states =
      .Regular (on_input frm data tracer none domain states)) ∧
    (∀ replay : ReplayContext α, ∃ pr,
      Ingredient.on_input_raw on_input frm data tracer replay domain states =
        .Regular pr) :=
  ⟨fun _ _ => rfl, rfl, fun _ => rfl, fun _ => ⟨_, rfl⟩⟩

/-- C4: the captured-keys invariant `captured ⊆ requested` holds of every
result the default `on_input_raw` produces under a `Partial` context — 
vacuously, since the default only ever produces `Regular`. -/
theorem captured_subset_request (on_input : OnInputFn α τ)
    (frm : LocalNodeIndex) (data : Records α) (tracer : τ) (key_cols : List Nat)
    (req : List (List α)) (domain : DomainNodes) (states : StateMap α) :
    capturedWithinRequest req
      (Ingredient.on_input_raw on_input frm data tracer
        (.Partial key_cols req) domain states) ∧
    ∃ pr, Ingredient.on_input_raw on_input frm data tracer
        (.Partial key_cols req) domain states = .Regular pr :=
  ⟨trivial, _, rfl⟩

/-- C9: when neither a materialization nor a domain entry exists for the
parent, the default `lookup` panics on the `unwrap`; when the parent has a
materialization or a domain entry, `lookup` returns normally. -/
theorem lookup_domain_unwrap (qt : QueryThroughFn α) (parent : LocalNodeIndex)
    (columns : List Nat) (key : List α) (domains : DomainNodes)
    (states : StateMap α) :
    (states parent = none → domains parent = none →
      Ingredient.lookup qt parent columns key domains states = .error ()) ∧
    ((states parent).isSome ∨ (domains parent).isSome →
      ∃ r, Ingredient.lookup qt parent columns key domains states = .ok r) := by
  constructor
  · intro hs hd
    simp [Ingredient.lookup, hs, hd]
  · intro h
    cases hs : states parent with
    | some st =>
      cases hl : st.lookup columns key with
      | Some rs => exact ⟨some (some rs), by simp [Ingredient.lookup, hs, hl]⟩
      | Missing => exact ⟨some none, by simp [Ingredient.lookup, hs, hl]⟩
    | none =>
      cases hd : domains parent with
      | some nd =>
        exact ⟨if nd.is_internal then qt parent columns key domains states else none,
          by simp [Ingredient.lookup, hs, hd]⟩
      | none => simp [hs, hd] at h

/-- Witness for C9: a concrete panic (no materialization, no domain entry)
and a concrete normal return. -/
theorem lookup_domain_unwrap_witness :
    Ingredient.lookup qtRows 0 [0] ["k"] domainsEmpty statesEmpty = .error () ∧
    ∃ r, Ingredient.lookup qtRows 0 [0] ["k"] domainsInternal statesEmpty = .ok r := by
  constructor
  · exact (lookup_domain_unwrap qtRows 0 [0] ["k"] domainsEmpty statesEmpty).1 rfl rfl
  · exact (lookup_domain_unwrap qtRows 0 [0] ["k"] domainsInternal statesEmpty).2
      (Or.inr rfl)

/-- C2 amended: under the precondition that the domain holds the parent
whenever no materialization exists, the default `lookup` returns `None` iff
no materialization exists and the parent is either non-internal or its
`query_through` returns `None` on these arguments; `Some(None)` iff the
materialization declares a miss, or no materialization exists and an internal
parent's `query_through` yields `Some(None)`; and `Some(Some(rows))` iff the
materialization's lookup finds exactly `rows`, or no materialization exists
and an internal parent's `query_through` yields `Some(Some(rows))`. -/
theorem lookup_trichotomy_amended (qt : QueryThroughFn α) (parent : LocalNodeIndex)
    (columns : List Nat) (key : List α) (domains : DomainNodes)
    (states : StateMap α)
    (hdom : states parent = none → (domains parent).isSome) :
    (Ingredient.lookup qt parent columns key domains states = .ok none ↔
      states parent = none ∧ ∀ nd, domains parent = some nd →
        nd.is_internal = false ∨ qt parent columns key domains states = none) ∧
    (Ingredient.lookup qt parent columns key domains states = .ok (some none) ↔
      (∃ st, states parent = some st ∧ st.lookup columns key = .Missing) ∨
      (states parent = none ∧ ∃ nd, domains parent = some nd ∧
        nd.is_internal = true ∧ qt parent columns key domains states = some none)) ∧
    (∀ rs, Ingredient.lookup qt parent columns key domains states =
        .ok (some (some rs)) ↔
      (∃ st, states parent = some st ∧ st.lookup columns key = .Some rs) ∨
      (states parent = none ∧ ∃ nd, domains parent = some nd ∧
        nd.is_internal = true ∧
        qt parent columns key domains states = some (some rs))) := by
  cases hs : states parent with
  | some st =>
    cases hl : st.lookup columns key with
    | Some rs0 =>
      have hred : Ingredient.lookup qt parent columns key domains states =
          .ok (some (some rs0)) := by
        simp [Ingredient.lookup, hs, hl]
      refine ⟨?_, ?_, ?_⟩
      · rw [hred]
        simp
      · rw [hred]
        simp [hl]
      · intro rs
        rw [hred]
        simp [hl]
    | Missing =>
      have hred : Ingredient.lookup qt parent columns key domains states =
          .ok (some none) := by
        simp [Ingredient.lookup, hs, hl]
      refine ⟨?_, ?_, ?_⟩
      · rw [hred]
        simp
      · rw [hred]
        simp [hl]
      · intro rs
        rw [hred]
        simp [hl]
  | none =>
    obtain ⟨nd, hd⟩ : ∃ nd, domains parent = some nd := by
      cases hdd : domains parent with
      | some nd => exact ⟨nd, rfl⟩
      | none => simp [hs, hdd] at hdom
    cases hint : nd.is_internal with
    | false =>
      have hred : Ingredient.lookup qt parent columns key domains states =
          .ok none := by
        simp [Ingredient.lookup, hs, hd, hint]
      refine ⟨?_, ?_, ?_⟩
      · rw [hred]
        constructor
        · intro _
          refine ⟨rfl, ?_⟩
          intro nd2 hnd2
          rw [hd] at hnd2
          injection hnd2 with hnd2
          subst hnd2
          exact Or.inl hint
        · intro _
          rfl
      · rw [hred]
        constructor
        · intro h
          simp at h
        · rintro (⟨st2, hst2, _⟩ | ⟨_, nd2, hnd2, hint2, _⟩)
          · cases hst2
          · rw [hd] at hnd2
            injection hnd2 with hnd2
            subst hnd2
            rw [hint] at hint2
            simp at hint2
      · intro rs
        rw [hred]
        constructor
        · intro h
          simp at h
        · rintro (⟨st2, hst2, _⟩ | ⟨_, nd2, hnd2, hint2, _⟩)
          · cases hst2
          · rw [hd] at hnd2
            injection hnd2 with hnd2
            subst hnd2
            rw [hint] at hint2
            simp at hint2
    | true =>
      have hred : Ingredient.lookup qt parent columns key domains states =
          .ok (qt parent columns key domains states) := by
        simp [Ingredient.lookup, hs, hd, hint]
      refine ⟨?_, ?_, ?_⟩
      · rw [hred]
        constructor
        · intro h
          have hq : qt parent columns key domains states = none := by
            simpa using h
          exact ⟨rfl, fun nd2 hnd2 => Or.inr hq⟩
        · rintro ⟨_, hall⟩
          rcases hall nd hd with hf | hq
          · rw [hint] at hf
            simp at hf
          · rw [hq]
      · rw [hred]
        constructor
        · intro h
          have hq : qt parent columns key domains states = some none := by
            simpa using h
          exact Or.inr ⟨rfl, nd, hd, hint, hq⟩
        · rintro (⟨st2, hst2, _⟩ | ⟨_, nd2, hnd2, _, hq⟩)
          · cases hst2
          · rw [hq]
      · intro rs
        rw [hred]
        constructor
        · intro h
          have hq : qt parent columns key domains states = some (some rs) := by
            simpa using h
          exact Or.inr ⟨rfl, nd, hd, hint, hq⟩
        · rintro (⟨st2, hst2, _⟩ | ⟨_, nd2, hnd2, _, hq⟩)
          · cases hst2
          · rw [hq]

/-- Witness for C2 amended: the `None` case (internal parent, default
`query_through`) and the rows case (internal parent, derivable rows) at
concrete inputs. -/
theorem lookup_trichotomy_amended_witness :
    Ingredient.lookup qtNone 0 [0] ["k"] domainsInternal statesEmpty = .ok none ∧
    Ingredient.lookup qtRows 0 [0] ["k"] domainsInternal statesEmpty =
      .ok (some (some [["q"]])) := by
  constructor
  · exact (lookup_trichotomy_amended qtNone 0 [0] ["k"] domainsInternal statesEmpty
      (fun _ => rfl)).1.mpr ⟨rfl, fun nd _ => Or.inr rfl⟩
  · exact ((lookup_trichotomy_amended qtRows 0 [0] ["k"] domainsInternal statesEmpty
      (fun _ => rfl)).2.2 [["q"]]).mpr (Or.inr ⟨rfl, nodeInternal, rfl, rfl, rfl⟩)

/-- C5: for a `Miss` whose `lookup_cols` indices are in bounds of `record`,
`lookup_key_vec` returns normally with one value per lookup column, the j-th
value being `record[lookup_cols[j]]`. -/
theorem lookup_key_vec_spec (m : Miss α)
    (h : ∀ i ∈ m.lookup_cols, i < m.record.length) :
    ∃ v, m.lookup_key_vec = some v ∧ v.length = m.lookup_cols.length ∧
      ∀ (j i : Nat), m.lookup_cols[j]? = some i → v[j]? = m.record[i]? := by
  obtain ⟨v, hv, hlen, hidx, _⟩ := projectRecord_spec m.record m.lookup_cols h
  exact ⟨v, hv, hlen, hidx⟩

/-- Witness for C5: scenario A — `lookup_cols = [0]`, `lookup_idx = [1]`,
`record = ["x","y"]`, no `replay_cols` — yields `lookup_key_vec = ["x"]`
(and `replay_key_vec = none`). -/
theorem lookup_key_vec_spec_witness :
    missScenarioA.lookup_key_vec = some ["x"] ∧
    missScenarioA.replay_key_vec = none := by
  obtain ⟨v, hv, hlen, hidx⟩ := lookup_key_vec_spec missScenarioA (by decide)
  have h0 : v[0]? = some "x" := by
    rw [hidx 0 0 rfl]
    rfl
  have hv1 : v = ["x"] := by
    cases v with
    | nil => simp at h0
    | cons a t =>
      cases t with
      | nil =>
        simp at h0
        simp [h0]
      | cons b t2 => simp [missScenarioA] at hlen
  rw [hv1] at hv
  exact ⟨hv, rfl⟩

/-- C6: `replay_key_vec` is `none` exactly when `replay_cols` is absent; with
`replay_cols = some rc` in bounds of `record`, it returns normally with one
value per replay column, the j-th value being `record[rc[j]]`. -/
theorem replay_key_vec_spec (m : Miss α) :
    (m.replay_cols = none → m.replay_key_vec = none) ∧
    (∀ rc, m.replay_cols = some rc → (∀ i ∈ rc, i < m.record.length) →
      ∃ v, m.replay_key_vec = some (some v) ∧ v.length = rc.length ∧
        ∀ (j i : Nat), rc[j]? = some i → v[j]? = m.record[i]?) := by
  constructor
  · intro h
    simp [Miss.replay_key_vec, h]
  · intro rc hrc h
    obtain ⟨v, hv, hlen, hidx, _⟩ := projectRecord_spec m.record rc h
    exact ⟨v, by simp [Miss.replay_key_vec, hrc, hv], hlen, hidx⟩

/-- Witness for C6: scenario B — `record = ["x","y"]`,
`replay_cols = some [1]` — yields `replay_key_vec = some ["y"]`. -/
theorem replay_key_vec_spec_witness :
    missScenarioB.replay_key_vec = some (some ["y"]) ∧
    missScenarioA.replay_key_vec = none := by
  constructor
  · obtain ⟨v, hv, hlen, hidx⟩ :=
      (replay_key_vec_spec missScenarioB).2 [1] rfl (by decide)
    have h0 : v[0]? = some "y" := by
      rw [hidx 0 1 rfl]
      rfl
    have hv1 : v = ["y"] := by
      cases v with
      | nil => simp at h0
      | cons a t =>
        cases t with
        | nil =>
          simp at h0
          simp [h0]
        | cons b t2 => simp at hlen
    rw [hv1] at hv
    exact hv
  · exact (replay_key_vec_spec missScenarioA).1 rfl

/-- C7: the borrowing accessors agree with the owned ones: under in-bounds
columns, the sequence yielded by `lookup_key` is exactly the contents of
`lookup_key_vec`; `replay_key` is `Some` iff `replay_key_vec` is; and when
`replay_cols` is present the sequence yielded by `replay_key` is exactly the
contents of `replay_key_vec`. -/
theorem key_accessors_agree (m : Miss α)
    (h1 : ∀ i ∈ m.lookup_cols, i < m.record.length)
    (h2 : ∀ rc, m.replay_cols = some rc → ∀ i ∈ rc, i < m.record.length) :
    (∃ v, m.lookup_key_vec = some v ∧ m.lookup_key = v.map some) ∧
    ((m.replay_key).isSome = (m.replay_key_vec).isSome) ∧
    (∀ rc, m.replay_cols = some rc →
      ∃ v, m.replay_key_vec = some (some v) ∧ m.replay_key = some (v.map some)) := by
  refine ⟨?_, ?_, ?_⟩
  · obtain ⟨v, hv, _, _, hmap⟩ := projectRecord_spec m.record m.lookup_cols h1
    exact ⟨v, hv, hmap⟩
  · simp [Miss.replay_key, Miss.replay_key_vec]
  · intro rc hrc
    obtain ⟨v, hv, _, _, hmap⟩ := projectRecord_spec m.record rc (h2 rc hrc)
    refine ⟨v, by simp [Miss.replay_key_vec, hrc, hv], ?_⟩
    simp [Miss.replay_key, hrc, hmap]

/-- Witness for C7: the accessor agreement at scenario B's `Miss`. -/
theorem key_accessors_agree_witness :
    (∃ v, missScenarioB.lookup_key_vec = some v ∧
      missScenarioB.lookup_key = v.map some) ∧
    (missScenarioB.replay_key).isSome = (missScenarioB.replay_key_vec).isSome ∧
    ∃ v, missScenarioB.replay_key_vec = some (some v) ∧
      missScenarioB.replay_key = some (v.map some) := by
  obtain ⟨ha, hb, hc⟩ := key_accessors_agree missScenarioB (by decide)
    (by intro rc hrc; injection hrc with hrc; subst hrc; decide)
  exact ⟨ha, hb, hc [1] rfl⟩

/-- C8 counterexample: the core performs no abort on the claimed broken
invariants: a `Miss` with `lookup_cols.len() ≠ lookup_idx.len()` is accepted
and its `lookup_key_vec` returns normally, and the default `on_input_raw`
processes a batch under a `ReplayContext::Partial` with an empty key set
normally, returning `Regular`. -/
theorem invariant_abort_counterexample :
    missMismatched.lookup_cols.length ≠ missMismatched.lookup_idx.length ∧
    missMismatched.lookup_key_vec = some ["x"] ∧
    Ingredient.on_input_raw onInputConst 0 [] () (.Partial [0] [])
        domainsInternal statesEmpty =
      .Regular ⟨[], []⟩ := by
  exact ⟨by decide, rfl, rfl⟩

/-- C8 amended: the core itself checks neither invariant: a `Miss` with
mismatched `lookup_cols`/`lookup_idx` lengths (and in-bounds lookup columns)
still yields a normal `lookup_key_vec`, and the default `on_input_raw`
returns a `Regular` result under any `Partial` context with an empty key set;
aborting on these conditions is left to code outside this core. -/
theorem invariant_abort_amended :
    (∀ (m : Miss α), (∀ i ∈ m.lookup_cols, i < m.record.length) →
      m.lookup_cols.length ≠ m.lookup_idx.length →
      (m.lookup_key_vec).isSome = true) ∧
    (∀ (on_input : OnInputFn β τ) (frm : LocalNodeIndex) (data : Records β)
        (tracer : τ) (key_cols : List Nat) (domain : DomainNodes)
        (states : StateMap β),
      ∃ pr, Ingredient.on_input_raw on_input frm data tracer
          (.Partial key_cols []) domain states = .Regular pr) := by
  constructor
  · intro m h _
    obtain ⟨v, hv, _, _, _⟩ := projectRecord_spec m.record m.lookup_cols h
    simp [Miss.lookup_key_vec, hv]
  · intro on_input frm data tracer key_cols domain states
    exact ⟨_, rfl⟩

/-- Witness for C8 amended: the mismatched `Miss` and an empty-keyed
`Partial` context at concrete inputs. -/
theorem invariant_abort_amended_witness :
    (missMismatched.lookup_key_vec).isSome = true ∧
    ∃ pr, Ingredient.on_input_raw onInputConst 0 [] () (.Partial [0] [])
        domainsInternal statesEmpty = .Regular pr := by
  constructor
  · exact (invariant_abort_amended (α := String) (β := String) (τ := Unit)).1
      missMismatched (by decide) (by decide)
  · exact (invariant_abort_amended (α := String) (β := String) (τ := Unit)).2
      onInputConst 0 [] () [0] domainsInternal statesEmpty

/-- C10: `Policy::parse` panics on a JSON deserialization error; an element
whose `table` or `predicate` field is not a string, or whose assembled query
fails to parse, panics the call; on success the result has one `Policy` per
array element, in order, each with `table` set to the JSON-serialized
representation of the element's `table` field — surrounding double quotes
included — rather than the raw string value. -/
theorem policy_parse_spec (from_str : String → Except String (List JsonValue))
    (parse_query : String → Option σ) (policy_text : String) :
    ((∃ e, from_str policy_text = .error e) →
      Policy.parse from_str parse_query policy_text = .error ()) ∧
    (∀ ps, from_str policy_text = .ok ps →
      ((∃ p ∈ ps, parsePolicyElem parse_query p = .error ()) →
        Policy.parse from_str parse_query policy_text = .error ()) ∧
      (∀ l, Policy.parse from_str parse_query policy_text = .ok l →
        l.length = ps.length ∧
        ∀ (k : Nat) p, ps[k]? = some p →
          ∃ pol, l[k]? = some pol ∧
            pol.table = (p.index "table").serialize ∧
            ∃ s, (p.index "table").as_str = some s ∧
              pol.table = "\"" ++ jsonEscape s ++ "\"")) ∧
    (∀ p : JsonValue,
      ((p.index "table").as_str = none → parsePolicyElem parse_query p = .error ()) ∧
      ((p.index "predicate").as_str = none →
        parsePolicyElem parse_query p = .error ()) ∧
      (∀ t pd, (p.index "table").as_str = some t →
        (p.index "predicate").as_str = some pd →
        parse_query ("select * from " ++ t ++ " " ++ pd ++ ";") = none →
        parsePolicyElem parse_query p = .error ())) := by
  refine ⟨?_, ?_, ?_⟩
  · rintro ⟨e, he⟩
    simp [Policy.parse, he]
  · intro ps hps
    constructor
    · intro h
      simp [Policy.parse, hps, parsePolicyList_error parse_query ps h]
    · intro l hl
      rw [Policy.parse, hps] at hl
      simp only [] at hl
      obtain ⟨hlen, hidx⟩ := parsePolicyList_ok parse_query ps l hl
      refine ⟨hlen, ?_⟩
      intro k p hk
      obtain ⟨pol, hpol, helem⟩ := hidx k p hk
      obtain ⟨s, hs, htab, hquote⟩ := parsePolicyElem_ok parse_query p pol helem
      exact ⟨pol, hpol, htab, s, hs, hquote⟩
  · intro p
    refine ⟨?_, ?_, ?_⟩
    · intro h
      rw [parsePolicyElem, h]
    · intro h
      rw [parsePolicyElem]
      cases ht : (p.index "table").as_str with
      | none => rfl
      | some t =>
        simp only [h]
    · intro t pd ht hpd hq
      rw [parsePolicyElem, ht]
      simp only [hpd, hq]

/-- Witness for C10: a failing deserializer panics the call, and parsing the
repository's own example element stores `"posts"` with its quotes. -/
theorem policy_parse_spec_witness :
    Policy.parse fromStrBad parseQueryStub "x" = .error () ∧
    ∃ pol, Policy.parse fromStrGood parseQueryStub "x" = .ok [pol] ∧
      pol.table = "\"posts\"" := by
  constructor
  · exact (policy_parse_spec fromStrBad parseQueryStub "x").1 ⟨"malformed", rfl⟩
  · have hok : Policy.parse fromStrGood parseQueryStub "x" =
        .ok [⟨"\"posts\"", 0⟩] := rfl
    obtain ⟨hlen, hidx⟩ :=
      ((policy_parse_spec fromStrGood parseQueryStub "x").2.1
        [policyElemGood] rfl).2 [⟨"\"posts\"", 0⟩] hok
    obtain ⟨pol, hpol, _, _⟩ := hidx 0 policyElemGood rfl
    have hp : (⟨"\"posts\"", 0⟩ : Policy Nat) = pol := by simpa using hpol
    subst hp
    exact ⟨_, hok, rfl⟩
